import Mathlib

/-!
Shallow embedding of `src/range_repair.py` (onzra/cassandra_range_repair).

Python dynamic values that flow into the journal key/record logic are
modelled by `PyVal` (None, strings, lists of strings).  Machine integers do
not matter here: Python integers are unbounded, and the token arithmetic is
over plain mathematical integers, so Lean's `Int` is the exact model.
Exceptions are modelled by returning an error marker together with the
mutations that were executed before the raise (Python objects keep the
mutations performed before an exception propagates).
-/

namespace RangeRepair

/-- The dynamically typed Python values passed for `keyspace` /
`column_families`: `None`, a string, or a list of strings. -/
inductive PyVal : Type where
  | none : PyVal
  | str : String → PyVal
  | list : List String → PyVal
deriving DecidableEq, Repr

/-- Python `str(...)` of a `PyVal` (`str(None) = "None"`, `str` of a list of
strings renders `['a', 'b']`; escaping inside reprs is not modelled, the
strings used in this development contain no quotes). -/
def pyStr : PyVal → String
  | PyVal.none => "None"
  | PyVal.str s => s
  | PyVal.list xs => "[" ++ String.intercalate ", " (xs.map (fun x => "'" ++ x ++ "'")) ++ "]"

/-- Python truthiness of a `PyVal`: `None`, `""` and `[]` are falsy. -/
def pyTruthy : PyVal → Bool
  | PyVal.none => false
  | PyVal.str s => s ≠ ""
  | PyVal.list xs => xs ≠ []

/-- The Python exceptions that the modelled code can raise. -/
inductive PyError : Type where
  | keyError : PyError
  | attributeError : PyError
  | typeError : PyError
  | unboundLocalError : PyError
  | exception : PyError
deriving DecidableEq, Repr

/-- Keyspace component of a slice key: source line
`keyspace = str(keyspace) or '<all>'` — note that Python's `or` falls back
to `'<all>'` only when `str(keyspace)` is the *empty string*; `str(None)`
is the truthy string `"None"`. -/
def key_keyspace_component (keyspace : PyVal) : String :=
  if pyStr keyspace = "" then "<all>" else pyStr keyspace

/-- Column-families component of a slice key: source line
`column_families = '<all>' if (column_families == [] or not column_families) else str(column_families)`. -/
def key_cf_component (column_families : PyVal) : String :=
  if column_families = PyVal.list [] ∨ pyTruthy column_families = false then "<all>"
  else pyStr column_families

/-- `create_key(step, start, end, nodeposition, keyspace, column_families)`:
`'{0}_{1}_{2}_{3}_{4}_{5}'.format(...)` over the six components. -/
def create_key (step : Int) (start «end» nodeposition : String)
    (keyspace column_families : PyVal) : String :=
  toString step ++ "_" ++ start ++ "_" ++ «end» ++ "_" ++ nodeposition ++ "_"
    ++ key_keyspace_component keyspace ++ "_" ++ key_cf_component column_families

/-! ## ExponentialBackoffRetryer -/

/-- `ExponentialBackoffRetryerConfig` named tuple.  Sleep durations are
Python floats; they are modelled as exact rationals. -/
structure RetryConfig : Type where
  max_tries : Nat
  initial_sleep : ℚ
  sleep_factor : ℚ
  max_sleep : ℚ
deriving DecidableEq, Repr

/-- The duration passed to the sleeper for one retry pause: source lines
`self.sleeper(next_sleep if self.config.max_sleep <= 0 else min(next_sleep, self.config.max_sleep))`. -/
def cappedSleep (max_sleep next_sleep : ℚ) : ℚ :=
  if max_sleep ≤ 0 then next_sleep else min next_sleep max_sleep

/-- Body of the `for i in range(self.config.max_tries)` loop of
`ExponentialBackoffRetryer.__call__`.  `i` is the current iteration index,
`rem` the number of iterations still allowed after this one
(`rem = 0` is the `last_iteration` test), `next_sleep` the nominal sleep.
Returns the final `result`, the list of durations passed to the sleeper,
and the number of executor invocations.  The executor is modelled as a
function of the invocation index. -/
def retryAux {ρ : Type} (executor : Nat → ρ) (success_checker : ρ → Bool)
    (max_sleep sleep_factor : ℚ) : Nat → Nat → ℚ → ρ × List ℚ × Nat
  | i, rem, next_sleep =>
    let result := executor i
    if success_checker result then (result, [], 1)
    else
      match rem with
      | 0 => (result, [], 1)
      | Nat.succ rem2 =>
        let s := cappedSleep max_sleep next_sleep
        let out := retryAux executor success_checker max_sleep sleep_factor
          (i + 1) rem2 (next_sleep * sleep_factor)
        (out.1, s :: out.2.1, out.2.2 + 1)

/-- `ExponentialBackoffRetryer.__call__`.  With `max_tries = 0` the loop
body never runs and the trailing `return result` would raise
`UnboundLocalError`; that case is modelled by `none`. -/
def retryCall {ρ : Type} (config : RetryConfig) (executor : Nat → ρ)
    (success_checker : ρ → Bool) : Option (ρ × List ℚ × Nat) :=
  match config.max_tries with
  | 0 => Option.none
  | Nat.succ m =>
    some (retryAux executor success_checker config.max_sleep config.sleep_factor
      0 m config.initial_sleep)

/-! ## Python dicts (insertion-ordered association lists) -/

/-- A Python dict with string keys, as an insertion-ordered association
list.  Well-formed dicts have pairwise-distinct keys (`keysNodup`). -/
abbrev Dict (α : Type) : Type := List (String × α)

/-- `k in d`. -/
def Dict.contains {α : Type} (d : Dict α) (k : String) : Bool :=
  List.any d (fun p => p.1 = k)

/-- `d[k]` as an `Option` (Python raises `KeyError` on `none`; the raise is
modelled at each use site). -/
def Dict.getVal {α : Type} (d : Dict α) (k : String) : Option α :=
  (List.find? (fun p => p.1 = k) d).map (fun p => p.2)

/-- `d[k] = v`: replace in place when the key is present, else append. -/
def Dict.set {α : Type} (d : Dict α) (k : String) (v : α) : Dict α :=
  if Dict.contains d k then List.map (fun p => if p.1 = k then (k, v) else p) d
  else d ++ [(k, v)]

/-- `del d[k]` (callers check presence; on an absent key Python raises
`KeyError`, modelled at each use site). -/
def Dict.del {α : Type} (d : Dict α) (k : String) : Dict α :=
  List.filter (fun p => ¬ p.1 = k) d

/-- Number of entries, `len(d)`. -/
def Dict.size {α : Type} (d : Dict α) : Nat :=
  List.length d

/-- The keys of the dict are pairwise distinct (true of every real Python
dict). -/
def Dict.keysNodup {α : Type} (d : Dict α) : Prop :=
  List.Nodup (List.map Prod.fst d)

/-! ## The journal: `RepairStatus` -/

/-- One repair record, as built by `RepairStatus._build_repair_dict`. -/
structure Rec : Type where
  time : String
  step : Int
  start : String
  «end» : String
  nodeposition : String
  keyspace : PyVal
  column_families : PyVal
  cmd : String
deriving DecidableEq, Repr

/-- `RepairStatus._build_repair_dict(cmd, step, start, end, nodeposition,
keyspace, column_families)`; `now` stands for `datetime.now().isoformat()`.
`keyspace or '<all>'` / `column_families or '<all>'` keep the argument when
it is truthy and fall back to the string `'<all>'` otherwise. -/
def build_repair_dict (cmd : String) (step : Int) (start «end» nodeposition : String)
    (keyspace column_families : PyVal) (now : String) : Rec :=
  { time := now
    step := step
    start := start
    «end» := «end»
    nodeposition := nodeposition
    keyspace := if pyTruthy keyspace then keyspace else PyVal.str "<all>"
    column_families := if pyTruthy column_families then column_families else PyVal.str "<all>"
    cmd := cmd }

/-- The mutable state of a `RepairStatus` object.  `filename` is the
truthiness of `self.filename` (whether `--output-status` was given);
timestamps are abstract ISO strings. -/
structure RepairStatus : Type where
  filename : Bool
  started : Option String
  updated : Option String
  finished : Option String
  last_resumed_at : Option String
  successful_count : Nat
  failed_count : Nat
  failed_repairs : Dict Rec
  current_repairs : Dict Rec
  finished_repairs : Dict Rec
  pending_repairs : Dict Rec
deriving DecidableEq, Repr

/-- A fresh `RepairStatus()` object (after `__init__` / `reset`). -/
def emptyStatus : RepairStatus :=
  { filename := false
    started := Option.none
    updated := Option.none
    finished := Option.none
    last_resumed_at := Option.none
    successful_count := 0
    failed_count := 0
    failed_repairs := []
    current_repairs := []
    finished_repairs := []
    pending_repairs := [] }

/-- `RepairStatus.write`: the JSON snapshot is taken first, then (only when
a filename was configured) `self.updated` is set and the snapshot is
written to the file.  Returns the new object state and the document written
(`none` when no output-status file was requested). -/
def write (now : String) (st : RepairStatus) : RepairStatus × Option RepairStatus :=
  let snapshot := st
  if st.filename then ({ st with updated := some now }, some snapshot)
  else (st, Option.none)

/-- Result of one journal mutator call: the object state after the call
(including mutations executed before a raise), the document written by
`write` if it was reached, and the exception raised, if any. -/
structure MutRes : Type where
  st : RepairStatus
  written : Option RepairStatus
  err : Option PyError
deriving DecidableEq, Repr

/-- `RepairStatus.add_pending_repair(k, p)`: plain dict insert, no write. -/
def add_pending_repair (k : String) (p : Rec) (st : RepairStatus) : RepairStatus :=
  { st with pending_repairs := Dict.set st.pending_repairs k p }

/-- `RepairStatus.gp()`: returns the pending bucket. -/
def gp (st : RepairStatus) : Dict Rec :=
  st.pending_repairs

/-- `RepairStatus.repair_start`: `current_repairs[k] = _build_repair_dict(...)`,
then `write`.  The pending entry for `k` is *not* removed. -/
def repair_start (cmd : String) (step : Int) (start «end» nodeposition : String)
    (keyspace column_families : PyVal) (now : String) (st : RepairStatus) : MutRes :=
  let k := create_key step start «end» nodeposition keyspace column_families
  let r := build_repair_dict cmd step start «end» nodeposition keyspace column_families now
  let st1 := { st with current_repairs := Dict.set st.current_repairs k r }
  let w := write now st1
  { st := w.1, written := w.2, err := Option.none }

/-- `RepairStatus.repair_success`: `finished_repairs[k] = current_repairs[k]`
(raising `KeyError` when `k` is not current), `del current_repairs[k]`,
`del pending_repairs[k]` (raising `KeyError` when `k` is not pending, with
the earlier mutations kept), `successful_count += 1`, `write`. -/
def repair_success (step : Int) (start «end» nodeposition : String)
    (keyspace column_families : PyVal) (now : String) (st : RepairStatus) : MutRes :=
  let k := create_key step start «end» nodeposition keyspace column_families
  match Dict.getVal st.current_repairs k with
  | Option.none => { st := st, written := Option.none, err := some PyError.keyError }
  | some v =>
    let st1 := { st with finished_repairs := Dict.set st.finished_repairs k v }
    let st2 := { st1 with current_repairs := Dict.del st1.current_repairs k }
    if Dict.contains st2.pending_repairs k then
      let st3 := { st2 with pending_repairs := Dict.del st2.pending_repairs k }
      let st4 := { st3 with successful_count := st3.successful_count + 1 }
      let w := write now st4
      { st := w.1, written := w.2, err := Option.none }
    else { st := st2, written := Option.none, err := some PyError.keyError }

/-- `RepairStatus.repair_fail`: `current_repairs[k] = _build_repair_dict(...)`,
`failed_repairs[k] = current_repairs[k]` (the record just stored),
`del current_repairs[k]`, `del pending_repairs[k]` (raising `KeyError` when
`k` is not pending), and then `self.failed_repairs.append(...)` — an
attribute that dicts do not have, so the call raises `AttributeError`
before `failed_count += 1` and `self.write()` are ever reached. -/
def repair_fail (cmd : String) (step : Int) (start «end» nodeposition : String)
    (keyspace column_families : PyVal) (now : String) (st : RepairStatus) : MutRes :=
  let k := create_key step start «end» nodeposition keyspace column_families
  let r := build_repair_dict cmd step start «end» nodeposition keyspace column_families now
  let st1 := { st with current_repairs := Dict.set st.current_repairs k r }
  let st2 := { st1 with failed_repairs := Dict.set st1.failed_repairs k r }
  let st3 := { st2 with current_repairs := Dict.del st2.current_repairs k }
  if Dict.contains st3.pending_repairs k then
    let st4 := { st3 with pending_repairs := Dict.del st3.pending_repairs k }
    { st := st4, written := Option.none, err := some PyError.attributeError }
  else { st := st3, written := Option.none, err := some PyError.keyError }

/-! ## `RepairStatus.resume` -/

/-- The JSON document loaded from an existing output-status file
(the schema written by `RepairStatus.write`). -/
structure StatusDoc : Type where
  started : Option String
  updated : Option String
  finished : Option String
  last_resumed_at : Option String
  successful_count : Nat
  failed_count : Nat
  failed_repairs : Dict Rec
  pending_repairs : Dict Rec
  current_repairs : Dict Rec
  finished_repairs : Dict Rec
deriving DecidableEq, Repr

/-- Python truthiness of a JSON string-or-null field (`None` and `""` are
falsy). -/
def strTruthy : Option String → Bool
  | Option.none => false
  | some s => s ≠ ""

/-- `RepairStatus._from_output_status(status)`: restore every timestamp,
bucket and counter from the loaded document. -/
def from_output_status (status : StatusDoc) (st : RepairStatus) : RepairStatus :=
  { st with
    started := status.started
    updated := status.updated
    finished := status.finished
    last_resumed_at := status.last_resumed_at
    failed_repairs := status.failed_repairs
    pending_repairs := status.pending_repairs
    current_repairs := status.current_repairs
    finished_repairs := status.finished_repairs
    successful_count := status.successful_count
    failed_count := status.failed_count }

/-- A Python return value of `RepairStatus.resume`: the source returns the
boolean `True`; the specification expects the pending map. -/
inductive PyRet : Type where
  | bool : Bool → PyRet
  | dict : Dict Rec → PyRet
deriving DecidableEq, Repr

/-- Result of `resume`: object state, document written (if `write` ran),
exception raised (if any) and the Python return value (when no raise). -/
structure ResumeRes : Type where
  st : RepairStatus
  written : Option RepairStatus
  err : Option PyError
  ret : Option PyRet
deriving DecidableEq, Repr

/-- `RepairStatus.resume(options, tokens)`: set `filename`/`steps` from the
options, load the document, raise when `status['finished']` is truthy,
otherwise restore everything, stamp `last_resumed_at`, `write`, and
`return True`.  `output_status` is the truthiness of
`options.output_status`, `doc` the parsed journal file, `now` the
`datetime.now().isoformat()` value. -/
def resume (output_status : Bool) (doc : StatusDoc) (now : String)
    (st : RepairStatus) : ResumeRes :=
  let st1 := { st with filename := output_status }
  if strTruthy doc.finished then
    { st := st1, written := Option.none, err := some PyError.exception, ret := Option.none }
  else
    let st2 := from_output_status doc st1
    let st3 := { st2 with last_resumed_at := some now }
    let w := write now st3
    { st := w.1, written := w.2, err := Option.none, ret := some (PyRet.bool true) }

/-! ## `TokenContainer` -/

/-- Murmur3 (default) regime constants of `TokenContainer`. -/
def RANGE_MIN : Int := -(2 ^ 63)

/-- Murmur3 (default) regime constants of `TokenContainer`. -/
def RANGE_MAX : Int := 2 ^ 63 - 1

/-- `TokenContainer.format` in the default regime:
`"{0:+021d}".format(value)` — explicit sign, zero-padded to width 21. -/
def format (value : Int) : String :=
  let sign := if value < 0 then "-" else "+"
  let digits := toString value.natAbs
  sign ++ String.mk (List.replicate (20 - digits.length) '0') ++ digits

/-- Python `range(a, b, inc)` for a positive increment: the values
`a, a + inc, …` strictly below `b`.  (`inc` is positive at every call site
modelled here; the count is `⌈(b − a) / inc⌉`.) -/
def pyRange (a b inc : Int) : List Int :=
  if 0 < inc ∧ a < b then
    (List.range ((b - a + inc - 1).toNat / inc.toNat)).map
      (fun i : Nat => a + inc * (i : Int))
  else []

/-- The trailing `while len(step_list) > 1` loop of `sub_range_generator`:
yield `(step_list[0], step_list[1], step)` with a 1-based step counter and
pop the head. -/
def pairYields (step_list : List String) (step : Nat) : List (String × String × Nat) :=
  match step_list with
  | a :: b :: rest => (a, b, step + 1) :: pairYields (b :: rest) (step + 1)
  | _ => []

/-- `TokenContainer.sub_range_generator(start, stop, steps)` as the list of
triples the generator yields, together with the exception that consuming it
to exhaustion raises, if any.  In both "fewer keys than steps" branches the
generator yields `(format(start), format(stop), 1)` and then — since
`step_list` was never assigned on that path — the trailing
`step_list.append(...)` raises `UnboundLocalError` when the generator is
resumed.  Integer divisions are over nonnegative operands at every
modelled call (`steps ≥ 1` and the branch conditions), where Python floor
division agrees with `Nat` division. -/
def sub_range_generator (rmin rmax : Int) (fmt : Int → String)
    (start stop : Int) (steps : Nat) : List (String × String × Nat) × Option PyError :=
  if stop > start then
    if start + (steps : Int) < stop + 1 then
      let step_increment : Int := ((stop - start).toNat / steps : Nat)
      let step_list := (List.map fmt (pyRange start stop step_increment)).take steps
      (pairYields (step_list ++ [fmt stop]) 0, Option.none)
    else
      ([(fmt start, fmt stop, 1)], some PyError.unboundLocalError)
  else
    let distance := (rmax - start) + (stop - rmin)
    if distance > (steps : Int) - 1 then
      let step_increment : Int := (distance.toNat / steps : Nat)
      let step_list := List.map fmt (pyRange start rmax step_increment)
        ++ List.map fmt (pyRange rmin stop step_increment)
      let step_list :=
        if (step_list.length : Int) > (steps : Int) - 1 then step_list.dropLast
        else step_list
      (pairYields (step_list ++ [fmt stop]) 0, Option.none)
    else
      ([(fmt start, fmt stop, 1)], some PyError.unboundLocalError)

/-- `TokenContainer.get_preceding_token(token)`: scan `reversed(ring_tokens)`
for the first element with `token > i`; fall back to `ring_tokens[-1]`
(`none` models the `IndexError` on an empty ring). -/
def get_preceding_token (ring_tokens : List Int) (token : Int) : Option Int :=
  match List.find? (fun i => token > i) ring_tokens.reverse with
  | some i => some i
  | Option.none => ring_tokens.getLast?

/-! ## `is_excluded` -/

/-- Helper for `pySplit`: walk the characters, breaking at the
separator. -/
def splitCharAux (sep : Char) : List Char → List Char → List String
  | [], acc => [String.mk acc.reverse]
  | c :: rest, acc =>
    if c = sep then String.mk acc.reverse :: splitCharAux sep rest []
    else splitCharAux sep rest (c :: acc)

/-- Python `s.split(sep)` for a single-character separator (always returns
a non-empty list; `''.split('/') = ['']`). -/
def pySplit (sep : Char) (s : String) : List String :=
  splitCharAux sep s.data []

/-- One record of `options.exclude_step`, as produced by
`parse_exclude_step`. -/
structure ExcludeStep : Type where
  keyspace : Option String
  column_family : Option String
  node : String
  step : Int
deriving DecidableEq, Repr

/-- The `for exclude_step in options.exclude_step` loop of `is_excluded`.
The loop condition is
`exclude_step['node'] == current_node and options.exclude_step['step'] == step`:
when the node matches, the second conjunct indexes the exclusion *list*
`options.exclude_step` with the string `'step'`, which raises
`TypeError: list indices must be integers`; otherwise the conjunction
short-circuits and the loop moves on. -/
def is_excluded_loop (current_node : String) :
    List ExcludeStep → Except PyError (Nat × Option ExcludeStep)
  | [] => Except.ok (0, Option.none)
  | e :: rest =>
    if e.node = current_node then Except.error PyError.typeError
    else is_excluded_loop current_node rest

/-- `is_excluded(options, start, end, step, nodeposition)`:
`current_node = nodeposition.split('/')[0]`, then the loop above.
(`start`, `end` and `step` are unreachable in the loop before the raise;
`options.keyspace` is never consulted on any path the code can complete.) -/
def is_excluded (exclude_step : List ExcludeStep) (nodeposition : String) :
    Except PyError (Nat × Option ExcludeStep) :=
  let current_node := (pySplit '/' nodeposition).headD ""
  is_excluded_loop current_node exclude_step

/-! ## Mutator sequences on one slice key -/

/-- One journal mutator applied to a fixed slice, with its own command
string and timestamp. -/
inductive Mut : Type where
  | mstart : String → String → Mut
  | msuccess : String → Mut
  | mfail : String → String → Mut
deriving DecidableEq, Repr

/-- Apply one mutator for the slice `(step, start, end, nodeposition,
keyspace, column_families)`. -/
def applyMut (step : Int) (start «end» nodeposition : String)
    (keyspace column_families : PyVal) : Mut → RepairStatus → MutRes
  | Mut.mstart cmd now, st =>
    repair_start cmd step start «end» nodeposition keyspace column_families now st
  | Mut.msuccess now, st =>
    repair_success step start «end» nodeposition keyspace column_families now st
  | Mut.mfail cmd now, st =>
    repair_fail cmd step start «end» nodeposition keyspace column_families now st

/-- Run a sequence of mutators on the journal, stopping at the first
raised exception (which aborts the per-slice control flow in the driver);
the mutations executed before the raise persist in the shared object. -/
def runTrace (step : Int) (start «end» nodeposition : String)
    (keyspace column_families : PyVal) :
    List Mut → RepairStatus → RepairStatus × Option PyError
  | [], st => (st, Option.none)
  | m :: ms, st =>
    let r := applyMut step start «end» nodeposition keyspace column_families m st
    match r.err with
    | some e => (r.st, some e)
    | Option.none => runTrace step start «end» nodeposition keyspace column_families ms r.st

/-- Well-formedness of a journal state: real Python dicts have distinct
keys, and the counters agree with the bucket sizes. -/
def wfCounts (st : RepairStatus) : Prop :=
  Dict.keysNodup st.pending_repairs ∧ Dict.keysNodup st.current_repairs ∧
  Dict.keysNodup st.finished_repairs ∧ Dict.keysNodup st.failed_repairs ∧
  st.successful_count = Dict.size st.finished_repairs ∧
  st.failed_count = Dict.size st.failed_repairs

/-- In how many of the four buckets does the key `k` appear? -/
def bucketCount (k : String) (st : RepairStatus) : Nat :=
  (if Dict.contains st.pending_repairs k then 1 else 0) +
  (if Dict.contains st.current_repairs k then 1 else 0) +
  (if Dict.contains st.finished_repairs k then 1 else 0) +
  (if Dict.contains st.failed_repairs k then 1 else 0)

/-- The states the key can occupy between mutator calls that did not
raise: never failed, and in exactly one of pending/finished (a current
entry may coexist with either). -/
def goodLoc (k : String) (st : RepairStatus) : Prop :=
  Dict.contains st.failed_repairs k = false ∧
  Dict.contains st.pending_repairs k = (!Dict.contains st.finished_repairs k)

/-- The guarantee that actually holds after an arbitrary mutator trace
(including one that ended in a raise). -/
def traceOutcome (k : String) (st : RepairStatus) : Prop :=
  1 ≤ bucketCount k st ∧ bucketCount k st ≤ 2 ∧
  st.successful_count = Dict.size st.finished_repairs ∧
  (st.failed_count = Dict.size st.failed_repairs ∨
   st.failed_count + 1 = Dict.size st.failed_repairs)

/-! ## Concrete instances used by counterexamples and witnesses -/

/-- The slice key of the concrete slice `(1, "s", "e", "1/1", None, None)`. -/
def k1 : String := create_key 1 "s" "e" "1/1" PyVal.none PyVal.none

/-- A concrete pending record for that slice. -/
def rec1 : Rec := build_repair_dict "" 1 "s" "e" "1/1" PyVal.none PyVal.none "t0"

/-- A journal whose slice `k1` is both current and pending (the state in
which the driver invokes `repair_fail`). -/
def stPendingCurrent : RepairStatus :=
  { emptyStatus with
    pending_repairs := [(k1, rec1)]
    current_repairs := [(k1, rec1)] }

/-- A stored journal document with a null `finished` field and one pending
slice. -/
def doc1 : StatusDoc :=
  { started := some "s0"
    updated := some "u0"
    finished := Option.none
    last_resumed_at := Option.none
    successful_count := 0
    failed_count := 0
    failed_repairs := []
    pending_repairs := [(k1, rec1)]
    current_repairs := []
    finished_repairs := [] }

/-! ## Dict lemmas -/

theorem Dict.contains_eq_isSome {α : Type} (d : Dict α) (k : String) :
    Dict.contains d k = (Dict.getVal d k).isSome := by
  induction d with
  | nil => rfl
  | cons p tl ih =>
    by_cases h : p.1 = k <;>
      simp [Dict.contains, Dict.getVal, List.any_cons, List.find?_cons, h] <;>
      simpa [Dict.contains, Dict.getVal] using ih

theorem Dict.contains_set_self {α : Type} (d : Dict α) (k : String) (v : α) :
    Dict.contains (Dict.set d k v) k = true := by
  unfold Dict.set
  split
  · next hc =>
    simp only [Dict.contains, List.any_eq_true, decide_eq_true_eq] at hc ⊢
    obtain ⟨p, hp, hpk⟩ := hc
    refine ⟨(k, v), List.mem_map.mpr ⟨p, hp, ?_⟩, rfl⟩
    simp [hpk]
  · simp [Dict.contains, List.any_eq_true]

theorem Dict.contains_del_self {α : Type} (d : Dict α) (k : String) :
    Dict.contains (Dict.del d k) k = false := by
  unfold Dict.contains Dict.del
  rw [List.any_eq_false]
  intro p hp
  have h2 := (List.mem_filter.mp hp).2
  simp only [decide_eq_true_eq] at h2 ⊢
  exact h2

theorem Dict.size_set {α : Type} (d : Dict α) (k : String) (v : α) :
    Dict.size (Dict.set d k v) =
      if Dict.contains d k then Dict.size d else Dict.size d + 1 := by
  unfold Dict.set
  split <;> simp_all [Dict.size]

theorem Dict.size_del_of_contains {α : Type} (d : Dict α) (k : String)
    (hnd : Dict.keysNodup d) (hc : Dict.contains d k = true) :
    Dict.size (Dict.del d k) + 1 = Dict.size d := by
  induction d with
  | nil => simp [Dict.contains] at hc
  | cons p tl ih =>
    simp only [Dict.keysNodup, List.map_cons, List.nodup_cons] at hnd
    by_cases h : p.1 = k
    · have htl : Dict.del tl k = tl := by
        simp only [Dict.del, List.filter_eq_self, decide_eq_true_eq]
        intro q hq
        intro hqk
        exact hnd.1 (by rw [h, ← hqk]; exact List.mem_map_of_mem Prod.fst hq)
      have hhead : (decide ¬p.1 = k) = false := by simp [h]
      simp only [Dict.del, Dict.size, List.filter_cons, hhead, if_false] at htl ⊢
      rw [if_neg (show ¬(false = true) by decide), htl]
      simp
    · have hc' : Dict.contains tl k = true := by
        simp only [Dict.contains, List.any_cons, Bool.or_eq_true,
          decide_eq_true_eq] at hc
        rcases hc with hc | hc
        · exact absurd hc h
        · simpa [Dict.contains] using hc
      have ihr := ih hnd.2 hc'
      have hhead : (decide ¬p.1 = k) = true := by simp [h]
      simp only [Dict.del, Dict.size, List.filter_cons, hhead, if_true,
        List.length_cons] at ihr ⊢
      omega

theorem Dict.del_of_not_contains {α : Type} (d : Dict α) (k : String)
    (hc : Dict.contains d k = false) : Dict.del d k = d := by
  simp only [Dict.contains, List.any_eq_false, decide_eq_true_eq] at hc
  simp only [Dict.del, List.filter_eq_self, decide_eq_true_eq]
  exact hc

theorem Dict.keysNodup_set {α : Type} (d : Dict α) (k : String) (v : α)
    (hnd : Dict.keysNodup d) : Dict.keysNodup (Dict.set d k v) := by
  unfold Dict.set
  split
  · next hc =>
    have hkeys : List.map Prod.fst (List.map (fun p => if p.1 = k then (k, v) else p) d) =
        List.map Prod.fst d := by
      rw [List.map_map]
      refine List.map_congr_left ?_
      intro p _
      by_cases h : p.1 = k <;> simp [h]
    simpa [Dict.keysNodup, hkeys] using hnd
  · next hc =>
    simp only [Dict.keysNodup, List.map_append, List.map_cons, List.map_nil] at *
    rw [List.nodup_append]
    refine ⟨hnd, List.nodup_singleton k, ?_⟩
    intro a ha hb
    simp only [List.mem_singleton] at hb
    subst hb
    simp only [Dict.contains, List.any_eq_true, decide_eq_true_eq] at hc
    push_neg at hc
    obtain ⟨p, hp, rfl⟩ := List.mem_map.mp ha
    exact hc p hp rfl

theorem Dict.keysNodup_del {α : Type} (d : Dict α) (k : String)
    (hnd : Dict.keysNodup d) : Dict.keysNodup (Dict.del d k) := by
  simp only [Dict.keysNodup, Dict.del] at *
  exact List.Nodup.sublist (List.Sublist.map Prod.fst (List.filter_sublist d)) hnd

/-! ## `write` only touches the `updated` timestamp -/

theorem write_pending (now : String) (st : RepairStatus) :
    (write now st).1.pending_repairs = st.pending_repairs := by
  unfold write
  split <;> rfl

theorem write_current (now : String) (st : RepairStatus) :
    (write now st).1.current_repairs = st.current_repairs := by
  unfold write
  split <;> rfl

theorem write_finished (now : String) (st : RepairStatus) :
    (write now st).1.finished_repairs = st.finished_repairs := by
  unfold write
  split <;> rfl

theorem write_failed (now : String) (st : RepairStatus) :
    (write now st).1.failed_repairs = st.failed_repairs := by
  unfold write
  split <;> rfl

theorem write_successful_count (now : String) (st : RepairStatus) :
    (write now st).1.successful_count = st.successful_count := by
  unfold write
  split <;> rfl

theorem write_failed_count (now : String) (st : RepairStatus) :
    (write now st).1.failed_count = st.failed_count := by
  unfold write
  split <;> rfl

/-! ## Claim C8: default components of the slice key -/

/-- Claim C8, counterexample: the claim says the keyspace component of the
slice key is the literal `<all>` whenever the keyspace is unspecified
(absent/None or empty).  For `keyspace = None`, however, `str(None)` is the
truthy string `"None"`, so `str(keyspace) or '<all>'` keeps `"None"` and the
key built by `create_key` carries the component `None`, not `<all>`. -/
theorem claim8_counterexample :
    create_key 1 "s" "e" "1/1" PyVal.none PyVal.none = "1_s_e_1/1_None_<all>" ∧
    key_keyspace_component PyVal.none ≠ "<all>" := by
  constructor
  · rfl
  · decide

/-- Claim C8 (amended): the column-families component of the slice key is
`<all>` whenever column_families is absent (`None`), an empty string or an
empty list; the keyspace component is `<all>` exactly when `str(keyspace)`
is the empty string (or already the literal `<all>`), so `keyspace = None`
yields the component `None` rather than `<all>`. -/
theorem claim8_key_components (step : Int) (start «end» nodeposition : String)
    (keyspace column_families : PyVal) :
    create_key step start «end» nodeposition keyspace column_families =
      toString step ++ "_" ++ start ++ "_" ++ «end» ++ "_" ++ nodeposition ++ "_"
        ++ key_keyspace_component keyspace ++ "_" ++ key_cf_component column_families ∧
    ((column_families = PyVal.none ∨ column_families = PyVal.str "" ∨
        column_families = PyVal.list []) →
      key_cf_component column_families = "<all>") ∧
    (key_keyspace_component keyspace = "<all>" ↔
      (pyStr keyspace = "" ∨ pyStr keyspace = "<all>")) ∧
    key_keyspace_component PyVal.none = "None" := by
  refine ⟨rfl, ?_, ?_, rfl⟩
  · rintro (rfl | rfl | rfl) <;> rfl
  · by_cases h : pyStr keyspace = "" <;> simp [key_keyspace_component, h]

/-- Claim C8 witness: instantiation of the amended claim at a concrete
slice. -/
theorem claim8_witness :
    key_cf_component (PyVal.list []) = "<all>" ∧
    (key_keyspace_component (PyVal.str "ks") = "<all>" ↔
      (pyStr (PyVal.str "ks") = "" ∨ pyStr (PyVal.str "ks") = "<all>")) := by
  refine ⟨?_, ?_⟩
  · exact (claim8_key_components 1 "s" "e" "1/1" (PyVal.str "ks") (PyVal.list [])).2.1
      (Or.inr (Or.inr rfl))
  · exact (claim8_key_components 1 "s" "e" "1/1" (PyVal.str "ks") (PyVal.list [])).2.2.1

/-! ## Claim C3: the "fewer keys than steps" branch raises on resumption -/

/-- Claim C3 (code bug): for `stop > start` with `start + steps ≥ stop + 1`
the generator yields the single triple `(format(start), format(stop), 1)`,
but then — contrary to the claim and to the function's own docstring
("just return the start and stop values") — raises `UnboundLocalError`
when iteration continues, because the fall-through
`step_list.append(self.format(stop))` reads a `step_list` that was never
assigned on this branch.  Evaluated here at `start = 0`, `stop = 5`,
`steps = 10`. -/
theorem claim3_single_slice_raises :
    sub_range_generator RANGE_MIN RANGE_MAX format 0 5 10 =
      ([(format 0, format 5, 1)], some PyError.unboundLocalError) := by
  rfl

/-! ## Claim C9: `is_excluded` crashes on any node match -/

/-- Claim C9 (code bug): with a single exclusion record
`{keyspace: None, column_family: None, node: "1", step: 3}` and a slice at
`nodeposition = "1/4"`, `step = 3`, the claim says `is_excluded` returns
kind 1 with the record (no keyspace named).  The code instead raises
`TypeError`: once `exclude_step['node'] == current_node` holds it evaluates
`options.exclude_step['step']`, indexing the exclusion *list* with a
string. -/
theorem claim9_matching_node_raises :
    is_excluded [ExcludeStep.mk Option.none Option.none "1" 3] "1/4" =
      Except.error PyError.typeError := by
  rfl

/-! ## Claim C2: `repair_fail` never completes -/

/-- Claim C2 (code bug): from a journal in which the slice key is both
current and pending, the claim (and §4.5 of the specification) says
`repair_fail` terminates normally, increments `failed_count` and writes the
journal.  The code moves the record into `failed_repairs` and removes the
pending and current entries, but then calls `self.failed_repairs.append(...)`
on a dict, raising `AttributeError` before `failed_count += 1` and
`self.write()` are reached: evaluated here, the call raises, `failed_count`
is unchanged (now one less than `|failed_repairs|`), nothing is written,
and the partial mutations — key into failed, out of pending and current —
persist. -/
theorem claim2_repair_fail_raises :
    (repair_fail "cmd" 1 "s" "e" "1/1" PyVal.none PyVal.none "t1" stPendingCurrent).err =
      some PyError.attributeError ∧
    (repair_fail "cmd" 1 "s" "e" "1/1" PyVal.none PyVal.none "t1" stPendingCurrent).st.failed_count =
      stPendingCurrent.failed_count ∧
    (repair_fail "cmd" 1 "s" "e" "1/1" PyVal.none PyVal.none "t1" stPendingCurrent).st.failed_count + 1 =
      Dict.size
        (repair_fail "cmd" 1 "s" "e" "1/1" PyVal.none PyVal.none "t1" stPendingCurrent).st.failed_repairs ∧
    (repair_fail "cmd" 1 "s" "e" "1/1" PyVal.none PyVal.none "t1" stPendingCurrent).written =
      Option.none ∧
    Dict.contains
      (repair_fail "cmd" 1 "s" "e" "1/1" PyVal.none PyVal.none "t1" stPendingCurrent).st.failed_repairs
      k1 = true ∧
    Dict.contains
      (repair_fail "cmd" 1 "s" "e" "1/1" PyVal.none PyVal.none "t1" stPendingCurrent).st.pending_repairs
      k1 = false ∧
    Dict.contains
      (repair_fail "cmd" 1 "s" "e" "1/1" PyVal.none PyVal.none "t1" stPendingCurrent).st.current_repairs
      k1 = false := by
  refine ⟨rfl, rfl, ?_, rfl, ?_, ?_, ?_⟩ <;> decide

/-! ## Claim C10: `repair_success` requires the key in both buckets -/

/-- Claim C10 (confirmed): whenever the derived slice key is absent from
`current_repairs` or from `pending_repairs`, `repair_success` raises
`KeyError`, does not increment `successful_count`, and never reaches
`self.write()` (unlike `repair_start` it never creates the record on the
fly). -/
theorem claim10_success_needs_both_buckets (st : RepairStatus) (step : Int)
    (start «end» nodeposition : String) (keyspace column_families : PyVal)
    (now : String)
    (h : ¬(Dict.contains st.current_repairs
            (create_key step start «end» nodeposition keyspace column_families) = true ∧
          Dict.contains st.pending_repairs
            (create_key step start «end» nodeposition keyspace column_families) = true)) :
    (repair_success step start «end» nodeposition keyspace column_families now st).err =
      some PyError.keyError ∧
    (repair_success step start «end» nodeposition keyspace column_families now st).st.successful_count =
      st.successful_count ∧
    (repair_success step start «end» nodeposition keyspace column_families now st).written =
      Option.none := by
  unfold repair_success
  rcases hg : Dict.getVal st.current_repairs
      (create_key step start «end» nodeposition keyspace column_families) with _ | v
  · simp [hg]
  · have hcc : Dict.contains st.current_repairs
        (create_key step start «end» nodeposition keyspace column_families) = true := by
      rw [Dict.contains_eq_isSome, hg]
      rfl
    have hpc : Dict.contains st.pending_repairs
        (create_key step start «end» nodeposition keyspace column_families) = false := by
      rcases hb : Dict.contains st.pending_repairs
          (create_key step start «end» nodeposition keyspace column_families)
      · rfl
      · exact absurd ⟨hcc, hb⟩ h
    simp [hg, hpc]

/-- Claim C10 witness: on the empty journal the slice key is in neither
bucket, and `repair_success` raises `KeyError`. -/
theorem claim10_witness :
    ¬(Dict.contains emptyStatus.current_repairs k1 = true ∧
      Dict.contains emptyStatus.pending_repairs k1 = true) ∧
    (repair_success 1 "s" "e" "1/1" PyVal.none PyVal.none "t" emptyStatus).err =
      some PyError.keyError := by
  refine ⟨by decide, ?_⟩
  exact (claim10_success_needs_both_buckets emptyStatus 1 "s" "e" "1/1"
    PyVal.none PyVal.none "t" (by decide)).1

/-! ## Claim C7: `resume` -/

/-- Claim C7, counterexample: on a stored document whose `finished` is
null, `resume` returns the Python boolean `True`, not the pending bucket
(the driver fetches the pending map separately through `gp()`). -/
theorem claim7_counterexample :
    (resume true doc1 "t2" emptyStatus).ret = some (PyRet.bool true) ∧
    (resume true doc1 "t2" emptyStatus).ret ≠
      some (PyRet.dict (gp (resume true doc1 "t2" emptyStatus).st)) := by
  refine ⟨rfl, ?_⟩
  decide

/-- Claim C7 (amended): `resume` raises exactly when the stored document's
`finished` field is non-null (for schema-conforming documents, whose
non-null timestamps are non-empty); when `finished` is null it restores
all four buckets and both counters from the document, sets
`last_resumed_at` to the current time and writes the journal — but it
returns the Python boolean `True`, not the pending bucket, which the
driver instead obtains through the `gp()` accessor. -/
theorem claim7_resume (doc : StatusDoc) (now : String) (st : RepairStatus)
    (hts : doc.finished ≠ some "") :
    ((resume true doc now st).err ≠ Option.none ↔ doc.finished ≠ Option.none) ∧
    (doc.finished = Option.none →
      (resume true doc now st).err = Option.none ∧
      (resume true doc now st).st.pending_repairs = doc.pending_repairs ∧
      (resume true doc now st).st.current_repairs = doc.current_repairs ∧
      (resume true doc now st).st.finished_repairs = doc.finished_repairs ∧
      (resume true doc now st).st.failed_repairs = doc.failed_repairs ∧
      (resume true doc now st).st.successful_count = doc.successful_count ∧
      (resume true doc now st).st.failed_count = doc.failed_count ∧
      (resume true doc now st).st.last_resumed_at = some now ∧
      (resume true doc now st).written ≠ Option.none ∧
      gp (resume true doc now st).st = doc.pending_repairs ∧
      (resume true doc now st).ret = some (PyRet.bool true)) := by
  rcases hf : doc.finished with _ | s
  · simp [resume, strTruthy, hf, from_output_status, write, gp]
  · have hs : s ≠ "" := by
      intro hcon
      exact hts (by rw [hf, hcon])
    simp [resume, strTruthy, hf, hs]

/-- Claim C7 witness: instantiation of the amended claim at the concrete
document `doc1` (null `finished`, one pending slice). -/
theorem claim7_witness :
    doc1.finished ≠ some "" ∧
    ((resume true doc1 "t2" emptyStatus).err ≠ Option.none ↔
      doc1.finished ≠ Option.none) ∧
    gp (resume true doc1 "t2" emptyStatus).st = doc1.pending_repairs := by
  refine ⟨by decide, ?_, ?_⟩
  · exact (claim7_resume doc1 "t2" emptyStatus (by decide)).1
  · exact ((claim7_resume doc1 "t2" emptyStatus (by decide)).2 rfl).2.2.2.2.2.2.2.2.2.1

/-! ## Claim C5: retryer laws -/

theorem retryAux_always_fail {ρ : Type} (executor : Nat → ρ) (succ : ρ → Bool)
    (C f : ℚ) (hfail : ∀ i, succ (executor i) = false) :
    ∀ (rem i : Nat) (next : ℚ),
      retryAux executor succ C f i rem next =
        (executor (i + rem),
         (List.range rem).map (fun j => cappedSleep C (next * f ^ j)),
         rem + 1) := by
  intro rem
  induction rem with
  | zero =>
    intro i next
    unfold retryAux
    simp [hfail]
  | succ rem2 ih =>
    intro i next
    unfold retryAux
    simp only [hfail, Bool.false_eq_true, if_false]
    rw [ih (i + 1) (next * f)]
    have h1 : i + 1 + rem2 = i + (rem2 + 1) := by omega
    have h2 : (List.range rem2).map (fun j => cappedSleep C (next * f * f ^ j)) =
        (List.range rem2).map (fun j => cappedSleep C (next * f ^ (j + 1))) := by
      refine List.map_congr_left ?_
      intro j _
      have : next * f * f ^ j = next * f ^ (j + 1) := by ring
      rw [this]
    have h3 : cappedSleep C next :: (List.range rem2).map
          (fun j => cappedSleep C (next * f ^ (j + 1))) =
        (List.range (rem2 + 1)).map (fun j => cappedSleep C (next * f ^ j)) := by
      rw [List.range_succ_eq_map, List.map_cons, List.map_map]
      simp [Function.comp_def]
    simp only [h1, h2, h3]

/-- Claim C5 (confirmed): with `max_tries = N ≥ 1` and an executor that
always fails, `ExponentialBackoffRetryer.__call__` invokes the executor
exactly `N` times, sleeps exactly `N − 1` times — the 1-based `i`-th sleep
being `min(initial_sleep · factor^(i−1), max_sleep)` when `max_sleep > 0`
and the uncapped `initial_sleep · factor^(i−1)` when `max_sleep ≤ 0` — and
returns the result of the last invocation.  (Sleep durations are Python
floats, modelled as exact rationals.) -/
theorem claim5_retryer {ρ : Type} (config : RetryConfig) (executor : Nat → ρ)
    (succ : ρ → Bool) (N : Nat) (hN : config.max_tries = N) (h1 : 1 ≤ N)
    (h2 : 0 ≤ config.initial_sleep) (h3 : 1 ≤ config.sleep_factor)
    (hfail : ∀ i, succ (executor i) = false) :
    retryCall config executor succ =
      some (executor (N - 1),
        (List.range (N - 1)).map (fun j =>
          if config.max_sleep ≤ 0 then config.initial_sleep * config.sleep_factor ^ j
          else min (config.initial_sleep * config.sleep_factor ^ j) config.max_sleep),
        N) := by
  obtain ⟨m, rfl⟩ : ∃ m, N = m + 1 := ⟨N - 1, by omega⟩
  unfold retryCall
  rw [hN]
  show some (retryAux executor succ config.max_sleep config.sleep_factor 0 m
    config.initial_sleep) = _
  rw [retryAux_always_fail executor succ config.max_sleep config.sleep_factor hfail m 0
    config.initial_sleep]
  have hm : m + 1 - 1 = m := by omega
  rw [hm]
  have hc : (fun j => cappedSleep config.max_sleep (config.initial_sleep * config.sleep_factor ^ j)) =
      (fun j => if config.max_sleep ≤ 0 then config.initial_sleep * config.sleep_factor ^ j
        else min (config.initial_sleep * config.sleep_factor ^ j) config.max_sleep) := by
    funext j
    rfl
  rw [Nat.zero_add, hc]

/-- Claim C5 witness: three always-failing tries with initial sleep 1,
factor 2, cap 10 — three invocations, sleeps `[1, 2]`, last result
returned. -/
theorem claim5_witness :
    (1 : Nat) ≤ 3 ∧
    retryCall (RetryConfig.mk 3 1 2 10) (fun i => i) (fun _ => false) =
      some (2, [(1 : ℚ), 2], 3) := by
  refine ⟨by norm_num, ?_⟩
  have h := claim5_retryer (RetryConfig.mk 3 1 2 10) (fun i => i) (fun _ => false) 3
    rfl (by norm_num) (by norm_num) (by norm_num) (fun i => rfl)
  rw [h]
  norm_num [List.range_succ, min_def]

/-! ## Claim C6: `get_preceding_token` -/

theorem find_desc_some (t : Int) :
    ∀ (l : List Int), List.Pairwise (fun a b => b ≤ a) l →
      ∀ r, List.find? (fun i => t > i) l = some r →
        r ∈ l ∧ r < t ∧ ∀ x ∈ l, x < t → x ≤ r := by
  intro l
  induction l with
  | nil => intro _ r hr; simp at hr
  | cons a tl ih =>
    intro hp r hr
    rcases List.pairwise_cons.mp hp with ⟨ha, htl⟩
    by_cases h : t > a
    · have : r = a := by
        rw [List.find?_cons_of_pos _ (by simpa using h)] at hr
        exact (Option.some_inj.mp hr).symm
      subst this
      refine ⟨List.mem_cons_self _ _, h, ?_⟩
      intro x hx _
      rcases List.mem_cons.mp hx with rfl | hx
      · exact le_refl x
      · exact ha x hx
    · rw [List.find?_cons_of_neg _ (by simpa using h)] at hr
      obtain ⟨hmem, hlt, hmax⟩ := ih htl r hr
      refine ⟨List.mem_cons_of_mem _ hmem, hlt, ?_⟩
      intro x hx hxt
      rcases List.mem_cons.mp hx with rfl | hx
      · exact absurd hxt h
      · exact hmax x hx hxt

theorem find_desc_none (t : Int) :
    ∀ (l : List Int), List.find? (fun i => t > i) l = Option.none →
      ∀ x ∈ l, ¬ x < t := by
  intro l
  induction l with
  | nil => intro _ x hx; simp at hx
  | cons a tl ih =>
    intro hr x hx
    by_cases h : t > a
    · rw [List.find?_cons_of_pos _ (by simpa using h)] at hr
      exact absurd hr (by simp)
    · rw [List.find?_cons_of_neg _ (by simpa using h)] at hr
      rcases List.mem_cons.mp hx with rfl | hx
      · exact h
      · exact ih hr x hx

theorem head_desc_max : ∀ (l : List Int), List.Pairwise (fun a b => b ≤ a) l →
    ∀ h : l ≠ [], ∀ x ∈ l, x ≤ l.head h := by
  intro l
  induction l with
  | nil => intro _ h; exact absurd rfl h
  | cons a tl _ =>
    intro hp _ x hx
    rcases List.mem_cons.mp hx with rfl | hx
    · exact le_refl x
    · exact (List.pairwise_cons.mp hp).1 x hx

/-- Claim C6 (confirmed): on a non-empty ascending-sorted ring,
`get_preceding_token(t)` returns the largest ring token strictly below `t`
when one exists, and the largest ring token overall (wrap-around) when no
ring token is below `t`. -/
theorem claim6_get_preceding (ring_tokens : List Int) (token : Int)
    (hne : ring_tokens ≠ []) (hs : List.Sorted (· ≤ ·) ring_tokens) :
    ((∃ x ∈ ring_tokens, x < token) →
      ∃ r, get_preceding_token ring_tokens token = some r ∧ r ∈ ring_tokens ∧
        r < token ∧ ∀ x ∈ ring_tokens, x < token → x ≤ r) ∧
    ((∀ x ∈ ring_tokens, ¬ x < token) →
      ∃ r, get_preceding_token ring_tokens token = some r ∧ r ∈ ring_tokens ∧
        ∀ x ∈ ring_tokens, x ≤ r) := by
  have hdesc : List.Pairwise (fun a b => b ≤ a) ring_tokens.reverse := by
    rw [List.pairwise_reverse]
    exact hs
  constructor
  · intro hex
    rcases hf : List.find? (fun i => token > i) ring_tokens.reverse with _ | r
    · obtain ⟨x, hx, hxt⟩ := hex
      exact absurd hxt
        (find_desc_none token ring_tokens.reverse hf x (List.mem_reverse.mpr hx))
    · obtain ⟨hmem, hlt, hmax⟩ := find_desc_some token ring_tokens.reverse hdesc r hf
      refine ⟨r, ?_, List.mem_reverse.mp hmem, hlt, ?_⟩
      · unfold get_preceding_token
        rw [hf]
      · intro x hx hxt
        exact hmax x (List.mem_reverse.mpr hx) hxt
  · intro hnone
    rcases hf : List.find? (fun i => token > i) ring_tokens.reverse with _ | r
    · have hrne : ring_tokens.reverse ≠ [] := by
        simpa using hne
      refine ⟨ring_tokens.reverse.head hrne, ?_, ?_, ?_⟩
      · unfold get_preceding_token
        rw [hf, ← List.head?_reverse, List.head?_eq_head hrne]
      · exact List.mem_reverse.mp (List.head_mem hrne)
      · intro x hx
        exact head_desc_max ring_tokens.reverse hdesc hrne x (List.mem_reverse.mpr hx)
    · obtain ⟨hmem, hlt, -⟩ := find_desc_some token ring_tokens.reverse hdesc r hf
      exact absurd hlt (hnone r (List.mem_reverse.mp hmem))

/-- Claim C6 witness: on the ring `[1, 3, 5]`, the preceding token of 4 is
3 (the largest token below 4), and the preceding token of 1 is 5 (the
wrap-around maximum). -/
theorem claim6_witness :
    ([1, 3, 5] : List Int) ≠ [] ∧
    (∃ r, get_preceding_token [1, 3, 5] 4 = some r ∧ r ∈ ([1, 3, 5] : List Int) ∧
      r < 4 ∧ ∀ x ∈ ([1, 3, 5] : List Int), x < 4 → x ≤ r) ∧
    (∃ r, get_preceding_token [1, 3, 5] 1 = some r ∧ r ∈ ([1, 3, 5] : List Int) ∧
      ∀ x ∈ ([1, 3, 5] : List Int), x ≤ r) := by
  refine ⟨by decide, ?_, ?_⟩
  · exact (claim6_get_preceding [1, 3, 5] 4 (by decide) (by decide)).1
      ⟨3, by decide, by decide⟩
  · exact (claim6_get_preceding [1, 3, 5] 1 (by decide) (by decide)).2 (by decide)

/-! ## Claim C4: number of yielded sub-ranges -/

theorem pairYields_length : ∀ (l : List String) (s : Nat),
    (pairYields l s).length = l.length - 1 := by
  intro l
  induction l with
  | nil => intro s; rfl
  | cons a tl ih =>
    intro s
    cases tl with
    | nil => rfl
    | cons b rest =>
      have := ih (s + 1)
      simp only [pairYields, List.length_cons] at this ⊢
      omega

theorem pyRange_length (a b inc : Int) :
    (pyRange a b inc).length =
      if 0 < inc ∧ a < b then (b - a + inc - 1).toNat / inc.toNat else 0 := by
  unfold pyRange
  split
  · rw [List.length_map, List.length_range]
  · rfl

theorem wrap_count_bound (a b s : Nat) (hs : 1 ≤ s) (hd : s ≤ a + b) :
    (a + (a + b) / s - 1) / ((a + b) / s) +
      (b + (a + b) / s - 1) / ((a + b) / s) ≤ 2 * s + 1 := by
  have hs0 : 0 < s := hs
  have hq1 : 1 ≤ (a + b) / s := (Nat.one_le_div_iff hs0).mpr hd
  have hq0 : 0 < (a + b) / s := hq1
  have hn1 : (a + (a + b) / s - 1) / ((a + b) / s) ≤ a / ((a + b) / s) + 1 := by
    calc (a + (a + b) / s - 1) / ((a + b) / s) ≤ (a + (a + b) / s) / ((a + b) / s) :=
          Nat.div_le_div_right (by omega)
    _ = a / ((a + b) / s) + 1 := Nat.add_div_right a hq0
  have hn2 : (b + (a + b) / s - 1) / ((a + b) / s) ≤ b / ((a + b) / s) + 1 := by
    calc (b + (a + b) / s - 1) / ((a + b) / s) ≤ (b + (a + b) / s) / ((a + b) / s) :=
          Nat.div_le_div_right (by omega)
    _ = b / ((a + b) / s) + 1 := Nat.add_div_right b hq0
  have hsplit : a / ((a + b) / s) + b / ((a + b) / s) ≤ (a + b) / ((a + b) / s) := by
    rw [Nat.le_div_iff_mul_le hq0, Nat.add_mul]
    exact Nat.add_le_add (Nat.div_mul_le_self a _) (Nat.div_mul_le_self b _)
  have hmod : (a + b) / s * s + (a + b) % s = a + b := Nat.div_add_mod' (a + b) s
  have hrem : (a + b) % s < s := Nat.mod_lt _ hs0
  have hle : a + b ≤ (a + b) / s * s + (s - 1) := by omega
  have heq : ((a + b) / s * s + (s - 1)) / ((a + b) / s) = s + (s - 1) / ((a + b) / s) :=
    Nat.mul_add_div hq0 s (s - 1)
  have hdq : (a + b) / ((a + b) / s) ≤ s + (s - 1) / ((a + b) / s) := by
    calc (a + b) / ((a + b) / s) ≤ ((a + b) / s * s + (s - 1)) / ((a + b) / s) :=
          Nat.div_le_div_right hle
    _ = s + (s - 1) / ((a + b) / s) := heq
  have hlast : (s - 1) / ((a + b) / s) ≤ s - 1 := Nat.div_le_self _ _
  omega

/-- Claim C4, counterexample: in the wrap-around case the trim removes only
one element (`step_list.pop()`), so more than `steps` slices can be
yielded: `sub_range_generator(RANGE_MAX − 4, RANGE_MIN + 3, steps = 4)`
(distance 7, increment 1) yields 6 triples, exceeding `steps = 4`. -/
theorem claim4_counterexample :
    ¬ ((sub_range_generator RANGE_MIN RANGE_MAX format
        (RANGE_MAX - 4) (RANGE_MIN + 3) 4).1.length ≤ 4) := by
  decide

/-- Claim C4 (amended): for tokens within `[RANGE_MIN, RANGE_MAX]` and
`steps ≥ 1`, the generator yields at most `steps` triples in the
non-wrapping case (`stop > start`), but in the wrap-around case the single
`pop()` trim lets the count exceed `steps`; in all cases the count is at
most `2·steps`. -/
theorem claim4_slice_count (rmin rmax : Int) (fmt : Int → String)
    (start stop : Int) (steps : Nat) (hsteps : 1 ≤ steps)
    (ha : rmin ≤ start) (hb : start ≤ rmax) (hc : rmin ≤ stop) (hd : stop ≤ rmax) :
    (sub_range_generator rmin rmax fmt start stop steps).1.length ≤ 2 * steps ∧
    (stop > start →
      (sub_range_generator rmin rmax fmt start stop steps).1.length ≤ steps) := by
  unfold sub_range_generator
  by_cases hgt : stop > start
  · simp only [if_pos hgt]
    by_cases hlt : start + (steps : Int) < stop + 1
    · simp only [if_pos hlt]
      rw [pairYields_length]
      simp only [List.length_append, List.length_take, List.length_map,
        List.length_cons, List.length_nil]
      omega
    · simp only [if_neg hlt, List.length_cons, List.length_nil]
      omega
  · simp only [if_neg hgt]
    refine ?_
    by_cases hdist : (rmax - start) + (stop - rmin) > (steps : Int) - 1
    · simp only [if_pos hdist]
      rw [pairYields_length]
      have hdn : steps ≤ ((rmax - start) + (stop - rmin)).toNat := by omega
      set qn : Nat := ((rmax - start) + (stop - rmin)).toNat / steps with hqn
      have hq1 : 1 ≤ qn := (Nat.one_le_div_iff (by omega)).mpr hdn
      have hn1 : (pyRange start rmax ((qn : Nat) : Int)).length =
          ((rmax - start).toNat + qn - 1) / qn := by
        rw [pyRange_length]
        split
        · next hcond =>
          have hnum : (rmax - start + (qn : Int) - 1).toNat =
              (rmax - start).toNat + qn - 1 := by omega
          rw [hnum, Int.toNat_ofNat]
        · next hcond =>
          have hnlt : ¬ start < rmax := by
            intro hcon
            exact hcond ⟨by exact_mod_cast hq1, hcon⟩
          have hz : (rmax - start).toNat = 0 := by omega
          rw [hz]
          symm
          apply Nat.div_eq_of_lt
          omega
      have hn2 : (pyRange rmin stop ((qn : Nat) : Int)).length =
          ((stop - rmin).toNat + qn - 1) / qn := by
        rw [pyRange_length]
        split
        · next hcond =>
          have hnum : (stop - rmin + (qn : Int) - 1).toNat =
              (stop - rmin).toNat + qn - 1 := by omega
          rw [hnum, Int.toNat_ofNat]
        · next hcond =>
          have hnlt : ¬ rmin < stop := by
            intro hcon
            exact hcond ⟨by exact_mod_cast hq1, hcon⟩
          have hz : (stop - rmin).toNat = 0 := by omega
          rw [hz]
          symm
          apply Nat.div_eq_of_lt
          omega
      have hbound := wrap_count_bound (rmax - start).toNat (stop - rmin).toNat steps
        hsteps (by omega)
      have hsum : (rmax - start).toNat + (stop - rmin).toNat =
          ((rmax - start) + (stop - rmin)).toNat := by omega
      rw [hsum] at hbound
      rw [← hqn] at hbound
      constructor
      · split
        · next hpop =>
          simp only [List.length_append, List.length_dropLast, List.length_map,
            List.length_cons, List.length_nil] at hpop ⊢
          rw [hn1, hn2] at hpop ⊢
          omega
        · next hpop =>
          simp only [List.length_append, List.length_map, List.length_cons,
            List.length_nil] at hpop ⊢
          rw [hn1, hn2] at hpop ⊢
          omega
      · intro hcon
        exact absurd hcon hgt
    · simp only [if_neg hdist, List.length_cons, List.length_nil]
      constructor
      · omega
      · intro hcon
        exact absurd hcon hgt

/-- Claim C4 witness: instantiation of the amended bound at a concrete
non-wrapping range, `start = 0`, `stop = 100`, `steps = 5`. -/
theorem claim4_witness :
    (1 : Nat) ≤ 5 ∧
    (sub_range_generator RANGE_MIN RANGE_MAX format 0 100 5).1.length ≤ 2 * 5 ∧
    ((100 : Int) > 0 →
      (sub_range_generator RANGE_MIN RANGE_MAX format 0 100 5).1.length ≤ 5) := by
  refine ⟨by norm_num, ?_, ?_⟩
  · exact (claim4_slice_count RANGE_MIN RANGE_MAX format 0 100 5 (by norm_num)
      (by decide) (by decide) (by decide) (by decide)).1
  · exact (claim4_slice_count RANGE_MIN RANGE_MAX format 0 100 5 (by norm_num)
      (by decide) (by decide) (by decide) (by decide)).2

/-! ## Claim C1: bucket/counter invariant under mutator traces -/

theorem goodLoc_traceOutcome (k : String) (st : RepairStatus)
    (hwf : wfCounts st) (hloc : goodLoc k st) : traceOutcome k st := by
  obtain ⟨-, -, -, -, hsc, hfc⟩ := hwf
  obtain ⟨hlf, hlp⟩ := hloc
  unfold traceOutcome bucketCount
  rw [hlf, hlp]
  refine ⟨?_, ?_, hsc, Or.inl hfc⟩ <;>
    cases Dict.contains st.current_repairs k <;>
    cases Dict.contains st.finished_repairs k <;>
    simp

theorem wfCounts_write (now : String) (st : RepairStatus) (h : wfCounts st) :
    wfCounts (write now st).1 := by
  unfold wfCounts at *
  rw [write_pending, write_current, write_finished, write_failed,
    write_successful_count, write_failed_count]
  exact h

theorem goodLoc_write (k : String) (now : String) (st : RepairStatus)
    (h : goodLoc k st) : goodLoc k (write now st).1 := by
  unfold goodLoc at *
  rw [write_pending, write_finished, write_failed]
  exact h

theorem applyMut_preserves (step : Int) (start «end» nodeposition : String)
    (keyspace column_families : PyVal) (m : Mut) (st : RepairStatus)
    (hwf : wfCounts st)
    (hloc : goodLoc (create_key step start «end» nodeposition keyspace column_families) st) :
    ((applyMut step start «end» nodeposition keyspace column_families m st).err = Option.none →
      wfCounts (applyMut step start «end» nodeposition keyspace column_families m st).st ∧
      goodLoc (create_key step start «end» nodeposition keyspace column_families)
        (applyMut step start «end» nodeposition keyspace column_families m st).st) ∧
    ((applyMut step start «end» nodeposition keyspace column_families m st).err ≠ Option.none →
      traceOutcome (create_key step start «end» nodeposition keyspace column_families)
        (applyMut step start «end» nodeposition keyspace column_families m st).st) := by
  obtain ⟨hnp, hnc, hnf, hnl, hsc, hfc⟩ := hwf
  obtain ⟨hlf, hlp⟩ := hloc
  cases m with
  | mstart cmd now =>
    simp only [applyMut, repair_start]
    refine ⟨fun _ => ⟨?_, ?_⟩, fun hne => (hne rfl).elim⟩
    · apply wfCounts_write
      exact ⟨hnp, Dict.keysNodup_set _ _ _ hnc, hnf, hnl, hsc, hfc⟩
    · apply goodLoc_write
      exact ⟨hlf, hlp⟩
  | msuccess now =>
    simp only [applyMut, repair_success]
    rcases hg : Dict.getVal st.current_repairs
        (create_key step start «end» nodeposition keyspace column_families) with _ | v
    · simp only [hg]
      refine ⟨fun h => absurd h (by simp), fun _ => ?_⟩
      exact goodLoc_traceOutcome _ _ ⟨hnp, hnc, hnf, hnl, hsc, hfc⟩ ⟨hlf, hlp⟩
    · simp only [hg]
      split
      · next hp =>
        -- key was pending (hence not finished): normal success path
        have hfin : Dict.contains st.finished_repairs
            (create_key step start «end» nodeposition keyspace column_families) = false := by
          rw [hp] at hlp
          cases hx : Dict.contains st.finished_repairs
              (create_key step start «end» nodeposition keyspace column_families)
          · rfl
          · rw [hx] at hlp
            simp at hlp
        refine ⟨fun _ => ⟨?_, ?_⟩, fun hne => (hne rfl).elim⟩
        · apply wfCounts_write
          refine ⟨Dict.keysNodup_del _ _ hnp, Dict.keysNodup_del _ _ hnc,
            Dict.keysNodup_set _ _ _ hnf, hnl, ?_, hfc⟩
          show st.successful_count + 1 = Dict.size (Dict.set st.finished_repairs
            (create_key step start «end» nodeposition keyspace column_families) v)
          rw [Dict.size_set, hfin]
          simp only [Bool.false_eq_true, if_false]
          omega
        · apply goodLoc_write
          refine ⟨hlf, ?_⟩
          show Dict.contains (Dict.del st.pending_repairs
              (create_key step start «end» nodeposition keyspace column_families))
              (create_key step start «end» nodeposition keyspace column_families) =
            !Dict.contains (Dict.set st.finished_repairs
              (create_key step start «end» nodeposition keyspace column_families) v)
              (create_key step start «end» nodeposition keyspace column_families)
          rw [Dict.contains_del_self, Dict.contains_set_self]
          rfl
      · next hp =>
        -- key not pending: KeyError after moving current → finished
        have hp' : Dict.contains st.pending_repairs
            (create_key step start «end» nodeposition keyspace column_families) = false := by
          cases hx : Dict.contains st.pending_repairs
              (create_key step start «end» nodeposition keyspace column_families)
          · rfl
          · exact absurd hx hp
        have hfin : Dict.contains st.finished_repairs
            (create_key step start «end» nodeposition keyspace column_families) = true := by
          rw [hp'] at hlp
          cases hx : Dict.contains st.finished_repairs
              (create_key step start «end» nodeposition keyspace column_families)
          · rw [hx] at hlp
            simp at hlp
          · rfl
        refine ⟨fun h => absurd h (by simp), fun _ => ?_⟩
        simp only [traceOutcome, bucketCount, Dict.contains_del_self,
          Dict.contains_set_self, hp', hlf]
        rw [Dict.size_set, hfin]
        simp only [if_true]
        refine ⟨by simp, by simp, hsc, Or.inl hfc⟩
  | mfail cmd now =>
    simp only [applyMut, repair_fail]
    split
    · next hp =>
      -- key was pending (hence neither finished nor failed): partial fail,
      -- AttributeError before the counter increment
      have hfin : Dict.contains st.finished_repairs
          (create_key step start «end» nodeposition keyspace column_families) = false := by
        rw [hp] at hlp
        cases hx : Dict.contains st.finished_repairs
            (create_key step start «end» nodeposition keyspace column_families)
        · rfl
        · rw [hx] at hlp
          simp at hlp
      refine ⟨fun h => absurd h (by simp), fun _ => ?_⟩
      simp only [traceOutcome, bucketCount, Dict.contains_del_self,
        Dict.contains_set_self, hfin]
      rw [Dict.size_set, hlf]
      simp only [Bool.false_eq_true, if_false]
      refine ⟨by simp, by simp, hsc, Or.inr ?_⟩
      omega
    · next hp =>
      -- key not pending (hence finished): KeyError, record now also failed
      have hp' : Dict.contains st.pending_repairs
          (create_key step start «end» nodeposition keyspace column_families) = false := by
        cases hx : Dict.contains st.pending_repairs
            (create_key step start «end» nodeposition keyspace column_families)
        · rfl
        · exact absurd hx hp
      have hfin : Dict.contains st.finished_repairs
          (create_key step start «end» nodeposition keyspace column_families) = true := by
        rw [hp'] at hlp
        cases hx : Dict.contains st.finished_repairs
            (create_key step start «end» nodeposition keyspace column_families)
        · rw [hx] at hlp
          simp at hlp
        · rfl
      refine ⟨fun h => absurd h (by simp), fun _ => ?_⟩
      simp only [traceOutcome, bucketCount, Dict.contains_del_self,
        Dict.contains_set_self, hp', hfin]
      rw [Dict.size_set, hlf]
      simp only [Bool.false_eq_true, if_false]
      refine ⟨by simp, by simp, hsc, Or.inr ?_⟩
      omega

theorem runTrace_outcome (step : Int) (start «end» nodeposition : String)
    (keyspace column_families : PyVal) :
    ∀ (ms : List Mut) (st : RepairStatus), wfCounts st →
      goodLoc (create_key step start «end» nodeposition keyspace column_families) st →
      traceOutcome (create_key step start «end» nodeposition keyspace column_families)
        (runTrace step start «end» nodeposition keyspace column_families ms st).1 := by
  intro ms
  induction ms with
  | nil =>
    intro st hwf hloc
    exact goodLoc_traceOutcome _ _ hwf hloc
  | cons m ms ih =>
    intro st hwf hloc
    have hstep := applyMut_preserves step start «end» nodeposition keyspace
      column_families m st hwf hloc
    unfold runTrace
    rcases he : (applyMut step start «end» nodeposition keyspace column_families m st).err
      with _ | e
    · simp only [he]
      obtain ⟨hw, hl⟩ := hstep.1 he
      exact ih _ hw hl
    · simp only [he]
      exact hstep.2 (by simp [he])

/-- Claim C1, counterexample: the claim says that after any mutator
sequence the key sits in exactly one bucket.  But `repair_start` does not
remove the pending entry (the source's resume machinery re-dispatches
whatever is still pending), so after `add_pending_repair(k, …)` followed by
`repair_start` the key is in *two* buckets, pending and current. -/
theorem claim1_counterexample :
    bucketCount k1 (repair_start "cmd" 1 "s" "e" "1/1" PyVal.none PyVal.none "t1"
      (add_pending_repair k1 rec1 emptyStatus)).st = 2 := by
  decide

/-- Claim C1 (amended): starting from a well-formed journal in which the
slice key is in no bucket, after `add_pending_repair` and any sequence of
`repair_start` / `repair_success` / `repair_fail` on that slice (stopping
at the first raised exception, whose earlier mutations persist), the key
appears in at least one and at most two of the four buckets — two when a
`repair_start` has left it in both pending and current, or when a raising
`repair_fail` hit a finished slice — `successful_count` always equals
`|finished_repairs|`, and `failed_count` equals `|failed_repairs|` except
after a raising `repair_fail`, which leaves it one less (the increment is
never reached). -/
theorem claim1_bucket_invariant (step : Int) (start «end» nodeposition : String)
    (keyspace column_families : PyVal) (p : Rec) (st0 : RepairStatus) (ms : List Mut)
    (hwf : wfCounts st0)
    (h1 : Dict.contains st0.pending_repairs
      (create_key step start «end» nodeposition keyspace column_families) = false)
    (h2 : Dict.contains st0.current_repairs
      (create_key step start «end» nodeposition keyspace column_families) = false)
    (h3 : Dict.contains st0.finished_repairs
      (create_key step start «end» nodeposition keyspace column_families) = false)
    (h4 : Dict.contains st0.failed_repairs
      (create_key step start «end» nodeposition keyspace column_families) = false) :
    traceOutcome (create_key step start «end» nodeposition keyspace column_families)
      (runTrace step start «end» nodeposition keyspace column_families ms
        (add_pending_repair
          (create_key step start «end» nodeposition keyspace column_families) p st0)).1 := by
  apply runTrace_outcome
  · obtain ⟨hnp, hnc, hnf, hnl, hsc, hfc⟩ := hwf
    exact ⟨Dict.keysNodup_set _ _ _ hnp, hnc, hnf, hnl, hsc, hfc⟩
  · unfold goodLoc add_pending_repair
    simp only
    rw [Dict.contains_set_self, h3, h4]
    exact ⟨rfl, rfl⟩

/-- Claim C1 witness: instantiation of the amended invariant on the empty
journal with the trace `[repair_start, repair_fail]`. -/
theorem claim1_witness :
    wfCounts emptyStatus ∧
    traceOutcome k1 (runTrace 1 "s" "e" "1/1" PyVal.none PyVal.none
      [Mut.mstart "c" "t1", Mut.mfail "c" "t2"]
      (add_pending_repair k1 rec1 emptyStatus)).1 := by
  have hwf : wfCounts emptyStatus := by
    unfold wfCounts Dict.keysNodup Dict.size emptyStatus
    simp
  exact ⟨hwf, claim1_bucket_invariant 1 "s" "e" "1/1" PyVal.none PyVal.none rec1
    emptyStatus [Mut.mstart "c" "t1", Mut.mfail "c" "t2"] hwf rfl rfl rfl rfl⟩

end RangeRepair
